import Mathlib

/-!
Shallow embedding of the searpent/classy-sdk-python client library.

The embedding covers the pieces of the code the claims are about:

* `classy_sdk/utils.py` — `join_url` (strip slashes, join with "/") and
  `validate_iso_datetime` (a `datetime.strptime` call against the format
  string `%Y-%m-%dT%H:%M:%S.%fZ`, re-raising `ValueError` on failure);
* `classy_sdk/api/api.py` — `ApiManager.__init__` / `ApiManager.query`
  (the stored header dict and the per-request header derivation);
* `classy_sdk/sdk/sdk.py` — the endpoint methods cited by the claims,
  modelled as pure request builders.  A method that raises a client-side
  `ValueError` before calling `ApiManager.query` is modelled as returning
  `Except.error ()`; a method that reaches the network returns `.ok` with
  a `Request` record describing verb, url, JSON body and query params.
  `str(uuid.uuid4())` is modelled by an explicit `fresh : String`
  parameter (the value drawn by that call), and file contents read from
  disk by explicit string parameters.
-/

namespace ClassySdk

/-- Decidable equality for `Except`, so that concrete runs of the
fallible request builders can be checked by `decide`. -/
instance {ε α : Type} [DecidableEq ε] [DecidableEq α] : DecidableEq (Except ε α) := fun x y =>
  match x, y with
  | .ok a, .ok b =>
    if h : a = b then isTrue (by rw [h]) else isFalse (by intro hc; cases hc; exact h rfl)
  | .error a, .error b =>
    if h : a = b then isTrue (by rw [h]) else isFalse (by intro hc; cases hc; exact h rfl)
  | .ok _, .error _ => isFalse (by intro hc; cases hc)
  | .error _, .ok _ => isFalse (by intro hc; cases hc)

/-- Numeric value of a decimal digit character, as in int(c) for '0'..'9'. -/
def dval (c : Char) : Nat := c.toNat - '0'.toNat

/-- Tests for the path separator character used by `join_url`. -/
def isSlash (c : Char) : Bool := c == '/'

/-- Embeds Python `str.strip("/")` on the character list: removes every
leading and every trailing '/' (all of them, as `str.strip` does). -/
def stripSlashes (l : List Char) : List Char :=
  ((l.dropWhile isSlash).reverse.dropWhile isSlash).reverse

/-- The `str.strip("/")` step of `join_url`, lifted to `String`. -/
def stripStr (s : String) : String := String.mk (stripSlashes s.data)

/-- Embeds Python `"/".join(parts)`. -/
def joinStrings : List String → String
  | [] => ""
  | [x] => x
  | x :: y :: xs => x ++ "/" ++ joinStrings (y :: xs)

/-- Embeds `utils.join_url`: strip "/" from both ends of every component,
then join the results with a single "/" between them. -/
def join_url (components : List String) : String :=
  joinStrings (components.map stripStr)

/-- Embeds Python `"%s" in message`: scans for the two-character
placeholder token. -/
def hasPctS : List Char → Bool
  | '%' :: 's' :: _ => true
  | _ :: rest => hasPctS rest
  | [] => false

/-!
Embedding of `datetime.strptime(timepoint, "%Y-%m-%dT%H:%M:%S.%fZ")`.

CPython's `_strptime` compiles the format into a regex (with
`re.IGNORECASE`) and then constructs a `datetime`:

* `%Y` → four digits;
* `%m` → `1[0-2]|0[1-9]|[1-9]` (one or two digits, value 1..12);
* `%d` → `3[01]|[12]\d|0[1-9]|[1-9]` (one or two digits, value 1..31);
* `%H` → `2[0-3]|[0-1]\d|\d` (one or two digits, value 0..23);
* `%M` → `[0-5]\d|\d` (one or two digits, value 0..59);
* `%S` → `6[0-1]|[0-5]\d|\d` (one or two digits, value 0..61);
* `%f` → one to six digits;
* literal characters match themselves, `T` and `Z` case-insensitively
  because of `IGNORECASE`; the whole string must be consumed.

Because in this format every variable-width field is followed by a
non-digit literal, the backtracking regex is equivalent to the
deterministic rule "take two digits if two digits are present, else one".
The final `datetime(...)` construction additionally requires year ≥ 1,
second ≤ 59 and day ≤ days-in-month for the parsed month and year.
-/

/-- Parses the `%Y` field: exactly four digits. -/
def parseY : List Char → Option (Nat × List Char)
  | a :: b :: c :: d :: rest =>
    if a.isDigit && b.isDigit && c.isDigit && d.isDigit then
      some (1000 * dval a + 100 * dval b + 10 * dval c + dval d, rest)
    else none
  | _ => none

/-- Parses one literal character of the format string. -/
def lit (c : Char) : List Char → Option (List Char)
  | x :: rest => if x = c then some rest else none
  | [] => none

/-- Parses one literal character case-insensitively (for `T` and `Z`,
since `_strptime` compiles its regex with `re.IGNORECASE`). -/
def litCI (u lo : Char) : List Char → Option (List Char)
  | x :: rest => if x = u ∨ x = lo then some rest else none
  | [] => none

/-- Parses a one-or-two-digit numeric field of the strptime regex.  A
two-digit form must have value in `twoLo..twoHi`; a one-digit form must
have value at least `oneLo` (the regex for `%m`/`%d` excludes a bare 0). -/
def field2 (oneLo twoLo twoHi : Nat) : List Char → Option (Nat × List Char)
  | [] => none
  | c1 :: rest1 =>
    if c1.isDigit then
      match rest1 with
      | c2 :: rest2 =>
        if c2.isDigit then
          let v := 10 * dval c1 + dval c2
          if twoLo ≤ v ∧ v ≤ twoHi then some (v, rest2) else none
        else if oneLo ≤ dval c1 then some (dval c1, rest1) else none
      | [] => if oneLo ≤ dval c1 then some (dval c1, []) else none
    else none

/-- Parses the `%f` field: one to six digits (their value only feeds the
microsecond component, which is always in range). -/
def parseFrac (l : List Char) : Option (List Char) :=
  if 1 ≤ (l.takeWhile Char.isDigit).length ∧ (l.takeWhile Char.isDigit).length ≤ 6 then
    some (l.dropWhile Char.isDigit)
  else none

/-- Gregorian leap-year rule used by `datetime`. -/
def isLeapYear (y : Nat) : Bool :=
  y % 4 == 0 && (!(y % 100 == 0) || y % 400 == 0)

/-- Number of days of a month, as enforced by the `datetime` constructor. -/
def daysInMonth (y m : Nat) : Nat :=
  if m = 2 then (if isLeapYear y then 29 else 28)
  else if m = 4 ∨ m = 6 ∨ m = 9 ∨ m = 11 then 30
  else 31

/-- Runs the whole strptime regex for `%Y-%m-%dT%H:%M:%S.%fZ` and returns
the parsed (year, month, day, hour, minute, second) when the entire input
matches. -/
def parseIso (l : List Char) : Option (Nat × Nat × Nat × Nat × Nat × Nat) := do
  let (y, r1) ← parseY l
  let r2 ← lit '-' r1
  let (mo, r3) ← field2 1 1 12 r2
  let r4 ← lit '-' r3
  let (d, r5) ← field2 1 1 31 r4
  let r6 ← litCI 'T' 't' r5
  let (h, r7) ← field2 0 0 23 r6
  let r8 ← lit ':' r7
  let (mi, r9) ← field2 0 0 59 r8
  let r10 ← lit ':' r9
  let (sec, r11) ← field2 0 0 61 r10
  let r12 ← lit '.' r11
  let r13 ← parseFrac r12
  let r14 ← litCI 'Z' 'z' r13
  match r14 with
  | [] => some (y, mo, d, h, mi, sec)
  | _ :: _ => none

/-- Decides whether `datetime.strptime(s, "%Y-%m-%dT%H:%M:%S.%fZ")`
succeeds: the regex must match the whole string and the `datetime`
construction must accept the parsed values. -/
def strptimeOk (s : String) : Bool :=
  match parseIso s.data with
  | some (y, mo, d, _, _, sec) => 1 ≤ y && sec ≤ 59 && d ≤ daysInMonth y mo
  | none => false

/-- Embeds `utils.validate_iso_datetime`: returns the input unchanged when
`strptime` accepts it, otherwise raises `ValueError` (modelled as
`Except.error ()`; the function prints a message and re-raises). -/
def validate_iso_datetime (s : String) : Except Unit String :=
  if strptimeOk s then .ok s else .error ()

/-- Modelled from the spec's words (claim side, for comparison only): the
"exact pattern YYYY-MM-DDTHH:MM:SS.mmmZ" with exactly three
fractional-second digits and the literal `T` and `Z`. -/
def specExactPattern (s : String) : Bool :=
  match s.data with
  | [y1, y2, y3, y4, d1, m1, m2, d2, dd1, dd2, t, h1, h2, c1, mi1, mi2, c2, s1, s2, p, f1, f2, f3, z] =>
    y1.isDigit && y2.isDigit && y3.isDigit && y4.isDigit && d1 = '-' &&
    m1.isDigit && m2.isDigit && d2 = '-' && dd1.isDigit && dd2.isDigit &&
    t = 'T' && h1.isDigit && h2.isDigit && c1 = ':' && mi1.isDigit &&
    mi2.isDigit && c2 = ':' && s1.isDigit && s2.isDigit && p = '.' &&
    f1.isDigit && f2.isDigit && f3.isDigit && z = 'Z'
  | _ => false

/-!
Embedding of `pathlib.PurePosixPath(...).name` and `.suffix`, used by the
PDF upload precondition checks.
-/

/-- Locates the last '.' of a name: returns its index together with the
tail of the list starting at that dot. -/
def lastDotSuffix : List Char → Option (Nat × List Char)
  | [] => none
  | c :: rest =>
    match lastDotSuffix rest with
    | some (i, suf) => some (i + 1, suf)
    | none => if c = '.' then some (0, c :: rest) else none

/-- Splits a character list at '/' separators, like Python
`s.split("/")`: n separators yield n + 1 (possibly empty) pieces. -/
def splitSlash : List Char → List (List Char)
  | [] => [[]]
  | c :: rest =>
    match splitSlash rest with
    | [] => [[c]]
    | h :: t => if c = '/' then [] :: h :: t else (c :: h) :: t

/-- Embeds `PurePosixPath(s).name`: the final path component, after
dropping empty components and bare "." components. -/
def pathName (s : String) : String :=
  match ((splitSlash s.data).filter (fun p => !p.isEmpty && p != ['.'])).getLast? with
  | some p => String.mk p
  | none => ""

/-- Embeds `PurePosixPath(s).suffix`: `name[i:]` for `i = name.rfind(".")`
when `0 < i < len(name) - 1`, else the empty string. -/
def pathSuffix (s : String) : String :=
  match lastDotSuffix (pathName s).data with
  | some (i, suf) =>
    if 0 < i ∧ i < (pathName s).data.length - 1 then String.mk suf else ""
  | none => ""

/-!
Embedding of `ApiManager` (`classy_sdk/api/api.py`).
-/

/-- Embeds Python `dict.update` with a single key: overwrite the value in
place when the key exists, else append the new binding. -/
def dictUpdate (d : List (String × String)) (k v : String) : List (String × String) :=
  if d.any (fun p => p.1 == k) then
    d.map (fun p => if p.1 == k then (p.1, v) else p)
  else d ++ [(k, v)]

/-- Embeds the `self._headers` dict set up by `ApiManager.__init__`. -/
def initHeaders (token : String) : List (String × String) :=
  [("x-api-key", token)]

/-- Embeds the header logic of `ApiManager.query` acting on the stored
header dict: `headers = self._headers` aliases the stored dict, and for a
non-GET verb `headers.update(...)` mutates that shared dict in place.  The
result is the pair (headers sent with this request, stored header dict
after the call). -/
def query (stored : List (String × String)) (reqType : String) :
    List (String × String) × List (String × String) :=
  if reqType ≠ "GET" then
    let h := dictUpdate stored "Content-Type" "application/json"
    (h, h)
  else (stored, stored)

/-!
Embedding of the `ClassySDK` endpoint methods (`classy_sdk/sdk/sdk.py`).
-/

/-- JSON-ish values appearing in request bodies: strings, and lists of
string-to-string records (metadata / requiredFields). -/
inductive JVal where
  | s (v : String)
  | records (v : List (List (String × String)))
deriving DecidableEq

/-- Metadata (and requiredFields) shape: a list of key/value records. -/
abbrev MetaList := List (List (String × String))

/-- A request descriptor handed to `ApiManager.query`: verb, url, JSON
body and query parameters (a `none` value models Python `None`). -/
structure Request where
  verb : String
  url : String
  body : List (String × JVal)
  params : List (String × Option String)
deriving DecidableEq

/-- Embeds `ClassySDK.list_cases`: validates both time bounds, then issues
a GET on /cases. -/
def listCases (base source fromTime toTime : String) : Except Unit Request := do
  let ft ← validate_iso_datetime fromTime
  let tt ← validate_iso_datetime toTime
  pure ⟨"GET", join_url [base, "/cases"], [],
    [("from", some ft), ("to", some tt), ("source", some source)]⟩

/-- Embeds `ClassySDK.list_exports`: validates the optional time bounds,
then issues a GET on /exports. -/
def listExports (base source expType : String) (fromTime toTime : Option String) :
    Except Unit Request := do
  let ft ← match fromTime with
    | none => pure none
    | some f => do
      let v ← validate_iso_datetime f
      pure (some v)
  let tt ← match toTime with
    | none => pure none
    | some t => do
      let v ← validate_iso_datetime t
      pure (some v)
  pure ⟨"GET", join_url [base, "/exports"], [],
    [("from", ft), ("to", tt), ("source", some source), ("type", some expType)]⟩

/-- Embeds `ClassySDK.list_inspections`: validates the optional time
bounds, then issues a GET on /inspections. -/
def listInspections (base source : String) (fromTime toTime : Option String) :
    Except Unit Request := do
  let ft ← match fromTime with
    | none => pure none
    | some f => do
      let v ← validate_iso_datetime f
      pure (some v)
  let tt ← match toTime with
    | none => pure none
    | some t => do
      let v ← validate_iso_datetime t
      pure (some v)
  pure ⟨"GET", join_url [base, "/inspections"], [],
    [("from", ft), ("to", tt), ("source", some source)]⟩

/-- Embeds `ClassySDK.create_case`: body has name and source, plus
metadata only when the caller supplied one. -/
def createCase (base source name : String) (metadata : Option MetaList) : Request :=
  let data := [("name", JVal.s name), ("source", JVal.s source)]
  let data := match metadata with
    | none => data
    | some md => data ++ [("metadata", JVal.records md)]
  ⟨"POST", join_url [base, "/cases"], data, []⟩

/-- Embeds `ClassySDK.update_case`; `fresh` is the value of
`str(uuid.uuid4())` drawn by this call, used when the caller-supplied
correlation id is absent or falsy (empty). -/
def updateCase (base caseId name : String) (cid : Option String) (fresh : String) : Request :=
  let corr := match cid with
    | none => fresh
    | some c => if c = "" then fresh else c
  ⟨"PATCH", join_url [base, "/cases", caseId],
    [("name", JVal.s name), ("correlation_id", JVal.s corr)], []⟩

/-- Embeds `ClassySDK.delete_case`. -/
def deleteCase (base caseId : String) (cid : Option String) (fresh : String) : Request :=
  let corr := match cid with
    | none => fresh
    | some c => if c = "" then fresh else c
  ⟨"POST", join_url [base, "/cases", caseId, "delete"],
    [("correlation_id", JVal.s corr)], []⟩

/-- Embeds `ClassySDK.cancel_delete_case`. -/
def cancelDeleteCase (base caseId : String) (cid : Option String) (fresh : String) : Request :=
  let corr := match cid with
    | none => fresh
    | some c => if c = "" then fresh else c
  ⟨"POST", join_url [base, "/cases", caseId, "cancel-delete"],
    [("correlation_id", JVal.s corr)], []⟩

/-- Embeds `ClassySDK.postpone_delete_case`: note that, unlike its
inspection counterpart, the method sends the caller's ttl without calling
`validate_iso_datetime`. -/
def postponeDeleteCase (base caseId ttl : String) : Except Unit Request :=
  pure ⟨"PATCH", join_url [base, "/cases", caseId], [("ttl", JVal.s ttl)], []⟩

/-- Embeds `ClassySDK.upload_photo`; `photo` stands for
`photo_base64.decode()`. -/
def uploadPhoto (base source caseId photo filename photoId : String)
    (cid : Option String) (fresh : String) (metadata : Option MetaList) : Request :=
  let corr := match cid with
    | none => fresh
    | some c => if c = "" then fresh else c
  let data := [("photo", JVal.s photo), ("photo_id", JVal.s photoId),
    ("filename", JVal.s filename), ("source", JVal.s source),
    ("correlation_id", JVal.s corr)]
  let data := match metadata with
    | none => data
    | some md => data ++ [("metadata", JVal.records md)]
  ⟨"PATCH", join_url [base, "/cases", caseId, "/upload"], data, []⟩

/-- Embeds `ClassySDK.upload_pdf`: raises `ValueError` when
`Path(filename).suffix != ".pdf"`; otherwise builds the PATCH request. -/
def uploadPdf (base source caseId pdf filename pdfId : String)
    (cid : Option String) (fresh : String) (metadata : Option MetaList) :
    Except Unit Request :=
  if pathSuffix filename ≠ ".pdf" then .error ()
  else
    let corr := match cid with
      | none => fresh
      | some c => if c = "" then fresh else c
    let data := [("photo", JVal.s pdf), ("photo_id", JVal.s pdfId),
      ("filename", JVal.s filename), ("source", JVal.s source),
      ("correlation_id", JVal.s corr)]
    let data := match metadata with
      | none => data
      | some md => data ++ [("metadata", JVal.records md)]
    .ok ⟨"PATCH", join_url [base, "/cases", caseId, "/pdf/upload"], data, []⟩

/-- Embeds `ClassySDK.upload_pdf_from_file`: raises `ValueError` when
either the file path's or the filename's pathlib suffix differs from
".pdf"; `encoded` stands for `convert_image(file_path)`. -/
def uploadPdfFromFile (base source caseId filePath filename pdfId encoded : String)
    (cid : Option String) (fresh : String) (metadata : Option MetaList) :
    Except Unit Request :=
  if pathSuffix filePath ≠ ".pdf" ∨ pathSuffix filename ≠ ".pdf" then .error ()
  else
    let corr := match cid with
      | none => fresh
      | some c => if c = "" then fresh else c
    let data := [("photo", JVal.s encoded), ("photo_id", JVal.s pdfId),
      ("filename", JVal.s filename), ("source", JVal.s source),
      ("correlation_id", JVal.s corr)]
    let data := match metadata with
      | none => data
      | some md => data ++ [("metadata", JVal.records md)]
    .ok ⟨"PATCH", join_url [base, "/cases", caseId, "/pdf/upload"], data, []⟩

/-- Embeds `ClassySDK.get_export_download_url`: issues a GET on
/exports/id and extracts `content.get("url")` from the decoded JSON body
(the second component; `none` models Python `None` for an absent key). -/
def getExportDownloadUrl (base expId : String) (content : List (String × JVal)) :
    Request × Option JVal :=
  (⟨"GET", join_url [base, "/exports", expId], [], []⟩, content.lookup "url")

/-- Embeds `ClassySDK.create_inspection`: the send_at/phone truthiness
check, then the body builder with its optional fields, the invitation
message placeholder check and the send_at validation, in source order. -/
def createInspection (base source name : String) (requiredFields : MetaList)
    (phone message sendAt : Option String) (metadata : Option MetaList) :
    Except Unit Request :=
  let sendAtTruthy := match sendAt with
    | some s => !(s == "")
    | none => false
  let phoneFalsy := match phone with
    | some p => p == ""
    | none => true
  if sendAtTruthy && phoneFalsy then .error ()
  else do
    let data := [("name", JVal.s name), ("source", JVal.s source),
      ("requiredFields", JVal.records requiredFields)]
    let data := match phone with
      | none => data
      | some p => data ++ [("phone", JVal.s p)]
    let data ← match message with
      | none => pure data
      | some m =>
        if hasPctS m.data then pure (data ++ [("invitationMessage", JVal.s m)])
        else Except.error ()
    let data ← match sendAt with
      | none => pure data
      | some sa => do
        let v ← validate_iso_datetime sa
        pure (data ++ [("sendAt", JVal.s v)])
    let data := match metadata with
      | none => data
      | some md => data ++ [("metadata", JVal.records md)]
    pure ⟨"POST", join_url [base, "/inspections"], data, []⟩

/-- Embeds `ClassySDK.delete_inspection`. -/
def deleteInspection (base inspectionId : String) (cid : Option String) (fresh : String) : Request :=
  let corr := match cid with
    | none => fresh
    | some c => if c = "" then fresh else c
  ⟨"POST", join_url [base, "/inspections", inspectionId, "delete"],
    [("correlation_id", JVal.s corr)], []⟩

/-- Embeds `ClassySDK.cancel_delete_inspection`. -/
def cancelDeleteInspection (base inspectionId : String) (cid : Option String) (fresh : String) : Request :=
  let corr := match cid with
    | none => fresh
    | some c => if c = "" then fresh else c
  ⟨"POST", join_url [base, "/inspections", inspectionId, "cancel-delete"],
    [("correlation_id", JVal.s corr)], []⟩

/-- Embeds `ClassySDK.postpone_delete_inspection`: here the ttl is
validated before the request is issued. -/
def postponeDeleteInspection (base inspectionId ttl : String) : Except Unit Request := do
  let t ← validate_iso_datetime ttl
  pure ⟨"PATCH", join_url [base, "/inspections", inspectionId], [("ttl", JVal.s t)], []⟩

/-!
Declarative vocabulary used by the theorems.
-/

/-- States that a character list does not start with a digit (the regex
fields of the strptime format are always followed by such a boundary). -/
def Boundary : List Char → Prop
  | [] => True
  | c :: _ => ¬ c.isDigit = true

/-- Value of a list of decimal digits, most significant first. -/
def digitsVal (l : List Char) : Nat :=
  l.foldl (fun a c => 10 * a + dval c) 0

/-- Shape of a one-or-two-digit strptime field: a single digit of value at
least `oneLo`, or two digits of value in `twoLo..twoHi`. -/
def FieldShape (oneLo twoLo twoHi : Nat) (f : List Char) : Prop :=
  (∃ c, f = [c] ∧ c.isDigit = true ∧ oneLo ≤ dval c) ∨
  (∃ c1 c2, f = [c1, c2] ∧ c1.isDigit = true ∧ c2.isDigit = true ∧
    twoLo ≤ 10 * dval c1 + dval c2 ∧ 10 * dval c1 + dval c2 ≤ twoHi)

/-- Declarative description of the strings accepted by
`datetime.strptime(s, "%Y-%m-%dT%H:%M:%S.%fZ")`: a four-digit year of
value at least 1, one-or-two-digit month, day, hour, minute and second
fields in their regex ranges, second at most 59, a day valid for the
parsed month and year, one to six fractional digits, and the literals of
the format with `T` and `Z` matched case-insensitively. -/
def IsoShape (l : List Char) : Prop :=
  ∃ (ys ms ds hs mis ss fs : List Char) (t z : Char),
    l = ys ++ ('-' :: (ms ++ ('-' :: (ds ++ (t :: (hs ++ (':' :: (mis ++
      (':' :: (ss ++ ('.' :: (fs ++ [z])))))))))))) ∧
    ys.length = 4 ∧ (∀ c ∈ ys, c.isDigit = true) ∧ 1 ≤ digitsVal ys ∧
    FieldShape 1 1 12 ms ∧ FieldShape 1 1 31 ds ∧ FieldShape 0 0 23 hs ∧
    FieldShape 0 0 59 mis ∧ FieldShape 0 0 61 ss ∧ digitsVal ss ≤ 59 ∧
    digitsVal ds ≤ daysInMonth (digitsVal ys) (digitsVal ms) ∧
    (t = 'T' ∨ t = 't') ∧ (z = 'Z' ∨ z = 'z') ∧
    1 ≤ fs.length ∧ fs.length ≤ 6 ∧ (∀ c ∈ fs, c.isDigit = true)

/-- States that a character list does not start with '/'. -/
def NoLeadSlash : List Char → Prop
  | [] => True
  | c :: _ => ¬ c = '/'

/-!
Lemmas about `stripSlashes` and `join_url`.
-/

theorem noLeadSlash_dropWhile (l : List Char) : NoLeadSlash (l.dropWhile isSlash) := by
  induction l with
  | nil => trivial
  | cons c t ih =>
    by_cases h : c = '/'
    · simpa [List.dropWhile_cons, isSlash, h] using ih
    · simp [List.dropWhile_cons, isSlash, h, NoLeadSlash]

theorem dropWhile_eq_self_of_noLead {l : List Char} (h : NoLeadSlash l) :
    l.dropWhile isSlash = l := by
  cases l with
  | nil => rfl
  | cons c t =>
    simp only [NoLeadSlash] at h
    simp [List.dropWhile_cons, isSlash, h]

theorem replicate_dropWhile_decomp (l : List Char) :
    ∃ n, l = List.replicate n '/' ++ l.dropWhile isSlash := by
  induction l with
  | nil => exact ⟨0, rfl⟩
  | cons c t ih =>
    by_cases h : c = '/'
    · obtain ⟨n, hn⟩ := ih
      refine ⟨n + 1, ?_⟩
      subst h
      simpa [List.replicate_succ, List.dropWhile_cons, isSlash] using hn
    · exact ⟨0, by simp [List.dropWhile_cons, isSlash, h]⟩

theorem stripSlashes_decomp (l : List Char) :
    ∃ n m, l = List.replicate n '/' ++ stripSlashes l ++ List.replicate m '/' := by
  obtain ⟨n, hn⟩ := replicate_dropWhile_decomp l
  obtain ⟨m, hm⟩ := replicate_dropWhile_decomp (l.dropWhile isSlash).reverse
  refine ⟨n, m, ?_⟩
  have h2 : l.dropWhile isSlash = stripSlashes l ++ List.replicate m '/' := by
    have := congrArg List.reverse hm
    simpa [stripSlashes, List.reverse_append, List.reverse_replicate] using this
  calc l = List.replicate n '/' ++ l.dropWhile isSlash := hn
    _ = List.replicate n '/' ++ (stripSlashes l ++ List.replicate m '/') := by rw [← h2]
    _ = List.replicate n '/' ++ stripSlashes l ++ List.replicate m '/' := by
        rw [List.append_assoc]

theorem noLeadSlash_of_isPrefix {x y : List Char} (h : x <+: y) (hy : NoLeadSlash y) :
    NoLeadSlash x := by
  cases x with
  | nil => trivial
  | cons c t =>
    obtain ⟨u, hu⟩ := h
    subst hu
    exact hy

theorem noTrailSlash_stripSlashes (l : List Char) :
    NoLeadSlash (stripSlashes l).reverse := by
  simpa [stripSlashes] using
    noLeadSlash_dropWhile (l.dropWhile isSlash).reverse

theorem noLeadSlash_stripSlashes (l : List Char) : NoLeadSlash (stripSlashes l) := by
  have hsuf : (l.dropWhile isSlash).reverse.dropWhile isSlash <:+ (l.dropWhile isSlash).reverse :=
    List.dropWhile_suffix isSlash
  have hpre : stripSlashes l <+: l.dropWhile isSlash := by
    have h := List.reverse_prefix.mpr hsuf
    simpa [stripSlashes] using h
  exact noLeadSlash_of_isPrefix hpre (noLeadSlash_dropWhile l)

theorem stripSlashes_eq_self {l : List Char} (h1 : NoLeadSlash l)
    (h2 : NoLeadSlash l.reverse) : stripSlashes l = l := by
  simp [stripSlashes, dropWhile_eq_self_of_noLead h1, dropWhile_eq_self_of_noLead h2]

theorem noLeadSlash_append {x : List Char} (y : List Char) (hx : x ≠ [])
    (h : NoLeadSlash x) : NoLeadSlash (x ++ y) := by
  cases x with
  | nil => exact absurd rfl hx
  | cons c t => exact h

theorem stripSlashes_append_middle {A B : List Char}
    (hA : NoLeadSlash A) (hB : NoLeadSlash B.reverse)
    (hAne : A ≠ []) (hBne : B ≠ []) :
    stripSlashes (A ++ '/' :: B) = A ++ '/' :: B := by
  apply stripSlashes_eq_self
  · exact noLeadSlash_append _ hAne hA
  · have : (A ++ '/' :: B).reverse = B.reverse ++ '/' :: A.reverse := by
      simp
    rw [this]
    exact noLeadSlash_append _ (by simpa using hBne) hB

theorem data_stripStr (s : String) : (stripStr s).data = stripSlashes s.data := rfl

theorem string_ne_empty_iff_data (s : String) : s ≠ "" ↔ s.data ≠ [] := by
  constructor
  · intro h hc
    exact h (String.ext (by simpa using hc))
  · intro h hc
    subst hc
    exact h rfl

theorem stripStr_append_middle {A B : String}
    (hA : NoLeadSlash A.data) (hB : NoLeadSlash B.data.reverse)
    (hAne : A ≠ "") (hBne : B ≠ "") :
    stripStr (A ++ "/" ++ B) = A ++ "/" ++ B := by
  apply String.ext
  have hdata : (A ++ "/" ++ B).data = A.data ++ '/' :: B.data := by
    simp [String.data_append]
  rw [data_stripStr, hdata,
    stripSlashes_append_middle hA hB ((string_ne_empty_iff_data A).mp hAne)
      ((string_ne_empty_iff_data B).mp hBne)]

theorem stripStr_join_two {a b : String}
    (ha : stripStr a ≠ "") (hb : stripStr b ≠ "") :
    stripStr (stripStr a ++ "/" ++ stripStr b) = stripStr a ++ "/" ++ stripStr b :=
  stripStr_append_middle
    (by rw [data_stripStr]; exact noLeadSlash_stripSlashes _)
    (by rw [data_stripStr]; exact noTrailSlash_stripSlashes _) ha hb

/-- Claim C3 (counterexample): `join_url` is not associative as claimed —
with the components "", "b", "c" the left-nested form gives "b/c" while
both the flat and the right-nested forms give "/b/c". -/
theorem c3_counterexample_assoc :
    join_url [join_url ["", "b"], "c"] ≠ join_url ["", "b", "c"] ∧
    join_url [join_url ["", "b"], "c"] ≠ join_url ["", join_url ["b", "c"]] ∧
    join_url [join_url ["", "b"], "c"] = "b/c" ∧
    join_url ["", "b", "c"] = "/b/c" := by decide

/-- Claim C3 (amended): for all strings a, b, c each of which strips to a
nonempty segment, join_url(join_url(a, b), c) == join_url(a, b, c) ==
join_url(a, join_url(b, c)); with a component that strips to the empty
string the equations can fail. -/
theorem c3_join_url_assoc_of_nonempty (a b c : String)
    (ha : stripStr a ≠ "") (hb : stripStr b ≠ "") (hc : stripStr c ≠ "") :
    join_url [join_url [a, b], c] = join_url [a, b, c] ∧
    join_url [a, join_url [b, c]] = join_url [a, b, c] := by
  simp only [join_url, List.map_cons, List.map_nil, joinStrings]
  rw [stripStr_join_two ha hb, stripStr_join_two hb hc]
  constructor <;> (apply String.ext; simp [String.data_append, List.append_assoc])

/-- Claim C3 (witness): the amended associativity at the concrete
components "a", "b", "c". -/
theorem c3_witness :
    join_url [join_url ["a", "b"], "c"] = join_url ["a", "b", "c"] ∧
    join_url ["a", join_url ["b", "c"]] = join_url ["a", "b", "c"] :=
  c3_join_url_assoc_of_nonempty "a" "b" "c" (by decide) (by decide) (by decide)

/-- Claim C4 (counterexample): `join_url` does not keep one slash on each
side of a segment such as "//a//" — it strips every boundary slash, so
join_url("//a//", "b") is "a/b" rather than the claimed "/a//b". -/
theorem c4_counterexample_one_layer :
    join_url ["//a//", "b"] = "a/b" ∧ join_url ["//a//", "b"] ≠ "/a//b" := by decide

/-- Claim C4 (amended): `join_url` strips ALL boundary '/' separators from
each segment (each original segment is a run of slashes, then the stripped
segment, then a run of slashes, and the stripped segment neither starts
nor ends with '/') and concatenates the stripped segments with a single
'/' between them; in particular join_url("/a/", "/b/", "c") ==
join_url("a", "b", "c") == "a/b/c". -/
theorem c4_join_url_strips_all :
    (∀ s : String, ∃ n m,
      s.data = List.replicate n '/' ++ (stripStr s).data ++ List.replicate m '/') ∧
    (∀ s : String, NoLeadSlash (stripStr s).data ∧ NoLeadSlash (stripStr s).data.reverse) ∧
    join_url ["/a/", "/b/", "c"] = "a/b/c" ∧ join_url ["a", "b", "c"] = "a/b/c" := by
  refine ⟨fun s => ?_, fun s => ⟨?_, ?_⟩, by decide, by decide⟩
  · rw [data_stripStr]
    exact stripSlashes_decomp s.data
  · rw [data_stripStr]
    exact noLeadSlash_stripSlashes _
  · rw [data_stripStr]
    exact noTrailSlash_stripSlashes _

/-- Claim C1: the code contradicts the claim — `ApiManager.query` aliases
the stored header dict and mutates it in place for non-GET verbs, so a
fresh client's GET sends no content-type header, but after one POST the
stored header dict has changed and a subsequent GET from the same instance
sends the JSON content-type header: the headers sent depend on which calls
were issued earlier. -/
theorem c1_query_mutates_stored_headers :
    (query (initHeaders "token") "GET").1.lookup "Content-Type" = none ∧
    (query (query (initHeaders "token") "POST").2 "GET").1.lookup "Content-Type" =
      some "application/json" ∧
    (query (initHeaders "token") "POST").2 ≠ initHeaders "token" := by decide

/-- Claim C5: `postpone_delete_case` sends the caller's deletion timepoint
without any client-side validation, although the timestamp is rejected by
the validator, while `postpone_delete_inspection`, `list_cases`,
`list_exports` and `list_inspections` all fail fast on the same input. -/
theorem c5_postpone_delete_case_skips_validation :
    strptimeOk "not-a-timestamp" = false ∧
    postponeDeleteCase "https://api" "c1" "not-a-timestamp" =
      .ok ⟨"PATCH", "https://api/cases/c1", [("ttl", JVal.s "not-a-timestamp")], []⟩ ∧
    postponeDeleteInspection "https://api" "i1" "not-a-timestamp" = .error () ∧
    listCases "https://api" "src" "not-a-timestamp" "2022-01-01T00:00:00.000Z" = .error () ∧
    listExports "https://api" "src" "regular" (some "not-a-timestamp") none = .error () ∧
    listInspections "https://api" "src" none (some "not-a-timestamp") = .error () := by decide

/-- Claim C6 (counterexample): a caller-supplied empty correlation id is
not forwarded verbatim — Python truthiness treats "" as absent, so the
request body carries the freshly generated uuid instead of the supplied
value. -/
theorem c6_counterexample_empty_cid :
    (updateCase "https://api" "c1" "n" (some "") "fresh-uuid").body.lookup "correlation_id" =
      some (JVal.s "fresh-uuid") ∧
    (updateCase "https://api" "c1" "n" (some "") "fresh-uuid").body.lookup "correlation_id" ≠
      some (JVal.s "") := by decide

/-- Claim C6 (amended): for every mutating call that accepts a correlation
id, a caller-supplied NON-EMPTY correlation id is placed in the request
body verbatim; when the caller supplies none, or supplies the empty
(falsy) string, the body carries the uuid freshly generated by that call,
and two such calls drawing distinct uuids produce distinct correlation
ids. -/
theorem c6_correlation_id_resolution :
    (∀ base caseId inspId name source photo filename photoId c fresh : String,
      c ≠ "" →
      ((updateCase base caseId name (some c) fresh).body.lookup "correlation_id" =
        some (JVal.s c) ∧
       (deleteCase base caseId (some c) fresh).body.lookup "correlation_id" =
        some (JVal.s c) ∧
       (cancelDeleteCase base caseId (some c) fresh).body.lookup "correlation_id" =
        some (JVal.s c) ∧
       (uploadPhoto base source caseId photo filename photoId (some c) fresh
          none).body.lookup "correlation_id" = some (JVal.s c) ∧
       (uploadPdf base source caseId photo "f.pdf" photoId (some c) fresh none).map
          (fun r => r.body.lookup "correlation_id") = .ok (some (JVal.s c)) ∧
       (deleteInspection base inspId (some c) fresh).body.lookup "correlation_id" =
        some (JVal.s c) ∧
       (cancelDeleteInspection base inspId (some c) fresh).body.lookup "correlation_id" =
        some (JVal.s c))) ∧
    (∀ (base caseId inspId name source photo filename photoId : String)
        (cid : Option String) (fresh : String),
      cid = none ∨ cid = some "" →
      ((updateCase base caseId name cid fresh).body.lookup "correlation_id" =
        some (JVal.s fresh) ∧
       (deleteCase base caseId cid fresh).body.lookup "correlation_id" =
        some (JVal.s fresh) ∧
       (cancelDeleteCase base caseId cid fresh).body.lookup "correlation_id" =
        some (JVal.s fresh) ∧
       (uploadPhoto base source caseId photo filename photoId cid fresh
          none).body.lookup "correlation_id" = some (JVal.s fresh) ∧
       (uploadPdf base source caseId photo "f.pdf" photoId cid fresh none).map
          (fun r => r.body.lookup "correlation_id") = .ok (some (JVal.s fresh)) ∧
       (deleteInspection base inspId cid fresh).body.lookup "correlation_id" =
        some (JVal.s fresh) ∧
       (cancelDeleteInspection base inspId cid fresh).body.lookup "correlation_id" =
        some (JVal.s fresh))) ∧
    (∀ base caseId name fresh1 fresh2 : String,
      fresh1 ≠ fresh2 →
      (updateCase base caseId name none fresh1).body.lookup "correlation_id" ≠
      (updateCase base caseId name none fresh2).body.lookup "correlation_id") := by
  refine ⟨?_, ?_, ?_⟩
  · intro base caseId inspId name source photo filename photoId c fresh hc
    refine ⟨?_, ?_, ?_, ?_, ?_, ?_, ?_⟩ <;>
      simp [updateCase, deleteCase, cancelDeleteCase, uploadPhoto, uploadPdf,
        deleteInspection, cancelDeleteInspection, hc, List.lookup, Except.map,
        show pathSuffix "f.pdf" = ".pdf" from by decide]
  · intro base caseId inspId name source photo filename photoId cid fresh hcid
    rcases hcid with rfl | rfl <;>
      refine ⟨?_, ?_, ?_, ?_, ?_, ?_, ?_⟩ <;>
        simp [updateCase, deleteCase, cancelDeleteCase, uploadPhoto, uploadPdf,
          deleteInspection, cancelDeleteInspection, List.lookup, Except.map,
          show pathSuffix "f.pdf" = ".pdf" from by decide]
  · intro base caseId name fresh1 fresh2 hne hc
    simp [updateCase, List.lookup] at hc
    exact hne hc

/-- Claim C6 (witness): the amended resolution at concrete inputs — a
supplied non-empty id "abc" is forwarded verbatim by `update_case`, and
`delete_case` with no supplied id uses the freshly drawn "f1". -/
theorem c6_witness :
    (updateCase "u" "c1" "n" (some "abc") "f1").body.lookup "correlation_id" =
      some (JVal.s "abc") ∧
    (deleteCase "u" "c1" none "f1").body.lookup "correlation_id" =
      some (JVal.s "f1") :=
  ⟨(c6_correlation_id_resolution.1 "u" "c1" "i1" "n" "s" "p" "fn" "pid" "abc" "f1"
      (by decide)).1,
   (c6_correlation_id_resolution.2.1 "u" "c1" "i1" "n" "s" "p" "fn" "pid" none "f1"
      (Or.inl rfl)).2.1⟩

/-!
Lemmas about `lastDotSuffix` and `pathSuffix`, and claims C7 to C10.
-/

theorem lastDotSuffix_eq_none {l : List Char} : lastDotSuffix l = none ↔ '.' ∉ l := by
  induction l with
  | nil => simp [lastDotSuffix]
  | cons c t ih =>
    cases h : lastDotSuffix t with
    | some p =>
      have hdot : '.' ∈ t := by
        by_contra hc
        rw [← ih] at hc
        rw [h] at hc
        cases hc
      simp [lastDotSuffix, h, hdot]
    | none =>
      have hdot : '.' ∉ t := ih.mp h
      by_cases hc : c = '.'
      · simp [lastDotSuffix, h, hc]
      · have hmem : '.' ∉ c :: t := by
          intro hm
          rcases List.mem_cons.mp hm with h1 | h2
          · exact hc h1.symm
          · exact hdot h2
        simp [lastDotSuffix, h, hc, hmem]

theorem lastDotSuffix_append_dot {rest : List Char} (pre : List Char) (h : '.' ∉ rest) :
    lastDotSuffix (pre ++ '.' :: rest) = some (pre.length, '.' :: rest) := by
  induction pre with
  | nil => simp [lastDotSuffix, lastDotSuffix_eq_none.mpr h]
  | cons c p ih => simp [lastDotSuffix, ih]

theorem lastDotSuffix_inv {l : List Char} {i : Nat} {suf : List Char}
    (h : lastDotSuffix l = some (i, suf)) :
    ∃ pre rest, l = pre ++ '.' :: rest ∧ '.' ∉ rest ∧ i = pre.length ∧ suf = '.' :: rest := by
  induction l generalizing i suf with
  | nil => cases h
  | cons c t ih =>
    cases ht : lastDotSuffix t with
    | some p =>
      obtain ⟨j, sufj⟩ := p
      rw [lastDotSuffix, ht] at h
      obtain ⟨hi, hsuf⟩ : j + 1 = i ∧ sufj = suf := by
        constructor <;> cases h <;> rfl
      obtain ⟨pre, rest, h1, h2, h3, h4⟩ := ih ht
      exact ⟨c :: pre, rest, by rw [h1]; rfl, h2, by simp [← hi, h3], by rw [← hsuf, h4]⟩
    | none =>
      rw [lastDotSuffix, ht] at h
      by_cases hc : c = '.'
      · rw [if_pos hc] at h
        obtain ⟨hi, hsuf⟩ : 0 = i ∧ c :: t = suf := by
          constructor <;> cases h <;> rfl
        exact ⟨[], t, by simp [hc], lastDotSuffix_eq_none.mp ht, hi.symm,
          by rw [← hsuf, hc]⟩
      · rw [if_neg hc] at h
        cases h

theorem pathSuffix_eq_pdf_iff (s : String) :
    pathSuffix s = ".pdf" ↔
      ['.', 'p', 'd', 'f'] <:+ (pathName s).data ∧ (pathName s).data ≠ ['.', 'p', 'd', 'f'] := by
  constructor
  · intro h
    rw [pathSuffix] at h
    cases hd : lastDotSuffix (pathName s).data with
    | none =>
      simp only [hd] at h
      exact absurd h (by decide)
    | some p =>
      obtain ⟨i, suf⟩ := p
      simp only [hd] at h
      by_cases hcond : 0 < i ∧ i < (pathName s).data.length - 1
      · rw [if_pos hcond] at h
        have hsuf : suf = ['.', 'p', 'd', 'f'] := by
          have := congrArg String.data h
          simpa using this
        obtain ⟨pre, rest, h1, _, h3, h4⟩ := lastDotSuffix_inv hd
        have hrest : rest = ['p', 'd', 'f'] := by
          have h5 : ('.' :: rest : List Char) = ['.', 'p', 'd', 'f'] := by
            rw [← h4, hsuf]
          simpa using h5
        have hpre : pre ≠ [] := by
          intro hc
          rw [hc] at h3
          simp at h3
          omega
        constructor
        · exact ⟨pre, by rw [h1, hrest]⟩
        · intro hc
          rw [h1, hrest] at hc
          have : pre.length + 4 = 4 := by
            have := congrArg List.length hc
            simpa using this
          exact hpre (List.length_eq_zero.mp (by omega))
      · rw [if_neg hcond] at h
        exact absurd h (by decide)
  · rintro ⟨⟨pre, hpre⟩, hne⟩
    have hprene : pre ≠ [] := by
      intro hc
      rw [hc] at hpre
      exact hne (by simpa using hpre.symm)
    have hdot : lastDotSuffix (pathName s).data = some (pre.length, ['.', 'p', 'd', 'f']) := by
      rw [← hpre]
      exact lastDotSuffix_append_dot pre (by decide)
    have hlen : (pathName s).data.length = pre.length + 4 := by
      rw [← hpre]
      simp
    have hcond : 0 < pre.length ∧ pre.length < (pathName s).data.length - 1 := by
      constructor
      · cases pre with
        | nil => exact absurd rfl hprene
        | cons a b => simp
      · omega
    rw [pathSuffix]
    simp only [hdot]
    rw [if_pos hcond]

/-- Claim C7 (counterexample): a filename consisting of just ".pdf" ends
with the literal suffix ".pdf", yet both PDF upload methods raise, because
pathlib gives it an empty suffix. -/
theorem c7_counterexample_dot_pdf :
    uploadPdf "https://api" "src" "c1" "pdfdata" ".pdf" "pid" none "fresh" none = .error () ∧
    uploadPdfFromFile "https://api" "src" "c1" "/tmp/a.pdf" ".pdf" "pid" "enc" none "fresh"
      none = .error () ∧
    List.isSuffixOf ['.', 'p', 'd', 'f'] (".pdf" : String).data = true := by decide

/-- Claim C7 (amended): `upload_pdf` raises a ValidationError (and issues
no request) exactly when the pathlib suffix of the filename is not the
literal, case-sensitive ".pdf", i.e. unless the final path component of
the filename ends with ".pdf" AND has a nonempty stem before it (so a
filename whose final component is exactly ".pdf" also raises);
`upload_pdf_from_file` raises exactly when the file path or the filename
fails that same test. -/
theorem c7_upload_pdf_check (base source caseId pdf filePath filename pdfId encoded : String)
    (cid : Option String) (fresh : String) (metadata : Option MetaList) :
    (uploadPdf base source caseId pdf filename pdfId cid fresh metadata = .error () ↔
      ¬(['.', 'p', 'd', 'f'] <:+ (pathName filename).data ∧
        (pathName filename).data ≠ ['.', 'p', 'd', 'f'])) ∧
    (uploadPdfFromFile base source caseId filePath filename pdfId encoded cid fresh
        metadata = .error () ↔
      ¬((['.', 'p', 'd', 'f'] <:+ (pathName filePath).data ∧
          (pathName filePath).data ≠ ['.', 'p', 'd', 'f']) ∧
        (['.', 'p', 'd', 'f'] <:+ (pathName filename).data ∧
          (pathName filename).data ≠ ['.', 'p', 'd', 'f']))) := by
  rw [← pathSuffix_eq_pdf_iff filename, ← pathSuffix_eq_pdf_iff filePath]
  constructor
  · by_cases h : pathSuffix filename = ".pdf" <;> simp [uploadPdf, h]
  · by_cases h1 : pathSuffix filePath = ".pdf" <;>
      by_cases h2 : pathSuffix filename = ".pdf" <;>
        simp [uploadPdfFromFile, h1, h2]

/-- Claim C7 (witness): the amended characterization at concrete inputs —
"report.txt" raises and "report.pdf" does not. -/
theorem c7_witness :
    uploadPdf "u" "s" "c1" "p" "report.txt" "pid" none "f" none = .error () ∧
    uploadPdf "u" "s" "c1" "p" "report.pdf" "pid" none "f" none ≠ .error () :=
  ⟨(c7_upload_pdf_check "u" "s" "c1" "p" "fp" "report.txt" "pid" "e" none "f" none).1.mpr
      (by decide),
   fun h =>
    absurd ((c7_upload_pdf_check "u" "s" "c1" "p" "fp" "report.pdf" "pid" "e" none "f"
      none).1.mp h) (by decide)⟩

/-- Claim C8 (counterexample): supplying the empty string as the phone
still trips the truthiness check — create_inspection with a valid send_at
and phone "" raises, while the identical call with phone "p" does not, so
"the same call with phone supplied passes this client-side check" is false
for a supplied empty phone. -/
theorem c8_counterexample_empty_phone :
    createInspection "https://api" "src" "n" [] (some "") none
      (some "2022-01-01T00:00:00.000Z") none = .error () ∧
    createInspection "https://api" "src" "n" [] (some "p") none
      (some "2022-01-01T00:00:00.000Z") none ≠ .error () := by decide

/-- Claim C8 (amended): every create_inspection call with send_at supplied
and phone not supplied raises a ValidationError before any network request
(for a truthy send_at via the companion-field check, for an empty one via
timestamp validation); the same call with a NON-EMPTY phone supplied
passes the companion-field check, and succeeds outright when the send_at
is well-formed and no invitation message is given. -/
theorem c8_send_at_requires_phone :
    (∀ (base source name : String) (rf : MetaList) (message : Option String)
        (metadata : Option MetaList) (s : String),
      createInspection base source name rf none message (some s) metadata = .error ()) ∧
    (∀ (base source name : String) (rf : MetaList) (metadata : Option MetaList)
        (p s : String),
      p ≠ "" → strptimeOk s = true →
      ∃ r, createInspection base source name rf (some p) none (some s) metadata = .ok r) := by
  constructor
  · intro base source name rf message metadata s
    by_cases hs : s = ""
    · subst hs
      cases message with
      | none =>
        cases metadata <;>
          simp [createInspection, validate_iso_datetime, bind, Except.bind,
            pure, Except.pure, show strptimeOk "" = false from rfl]
      | some m =>
        by_cases hm : hasPctS m.data = true <;>
          cases metadata <;>
            simp [createInspection, validate_iso_datetime, hm, bind, Except.bind,
              pure, Except.pure, show strptimeOk "" = false from rfl]
    · simp [createInspection, hs]
  · intro base source name rf metadata p s hp hs
    cases metadata with
    | none =>
      exact ⟨⟨"POST", join_url [base, "/inspections"],
        [("name", JVal.s name), ("source", JVal.s source),
         ("requiredFields", JVal.records rf), ("phone", JVal.s p),
         ("sendAt", JVal.s s)], []⟩,
        by simp [createInspection, hp, validate_iso_datetime, hs, bind, Except.bind,
          pure, Except.pure]⟩
    | some md =>
      exact ⟨⟨"POST", join_url [base, "/inspections"],
        [("name", JVal.s name), ("source", JVal.s source),
         ("requiredFields", JVal.records rf), ("phone", JVal.s p),
         ("sendAt", JVal.s s), ("metadata", JVal.records md)], []⟩,
        by simp [createInspection, hp, validate_iso_datetime, hs, bind, Except.bind,
          pure, Except.pure]⟩

/-- Claim C8 (witness): the amended statement at concrete inputs — send_at
with no phone errors, and the same call with phone "+420123456789"
returns a request. -/
theorem c8_witness :
    createInspection "u" "s" "n" [] none none
      (some "2022-01-01T00:00:00.000Z") none = .error () ∧
    ∃ r, createInspection "u" "s" "n" [] (some "+420123456789") none
      (some "2022-01-01T00:00:00.000Z") none = .ok r :=
  ⟨c8_send_at_requires_phone.1 "u" "s" "n" [] none none "2022-01-01T00:00:00.000Z",
   c8_send_at_requires_phone.2 "u" "s" "n" [] none "+420123456789"
     "2022-01-01T00:00:00.000Z" (by decide) (by decide)⟩

/-- Claim C9: optional payload fields omitted by the caller are entirely
absent from the request body — create_case and the upload methods without
metadata produce no "metadata" key, and create_inspection without phone,
message, send_at and metadata produces none of the keys "phone",
"invitationMessage", "sendAt", "metadata". -/
theorem c9_optional_fields_absent :
    (∀ base source name : String,
      (createCase base source name none).body.lookup "metadata" = none) ∧
    (∀ (base source caseId photo filename photoId : String) (cid : Option String)
        (fresh : String),
      (uploadPhoto base source caseId photo filename photoId cid fresh
        none).body.lookup "metadata" = none) ∧
    (∀ (base source caseId pdf pdfId : String) (cid : Option String) (fresh : String),
      (uploadPdf base source caseId pdf "f.pdf" pdfId cid fresh none).map
        (fun r => r.body.lookup "metadata") = .ok none) ∧
    (∀ (base source name : String) (rf : MetaList),
      ∃ r, createInspection base source name rf none none none none = .ok r ∧
        r.body.lookup "phone" = none ∧
        r.body.lookup "invitationMessage" = none ∧
        r.body.lookup "sendAt" = none ∧
        r.body.lookup "metadata" = none) := by
  refine ⟨?_, ?_, ?_, ?_⟩
  · intro base source name
    simp [createCase, List.lookup]
  · intro base source caseId photo filename photoId cid fresh
    simp [uploadPhoto, List.lookup]
  · intro base source caseId pdf pdfId cid fresh
    simp [uploadPdf, List.lookup, Except.map,
      show pathSuffix "f.pdf" = ".pdf" from by decide]
  · intro base source name rf
    refine ⟨⟨"POST", join_url [base, "/inspections"],
      [("name", JVal.s name), ("source", JVal.s source),
       ("requiredFields", JVal.records rf)], []⟩,
      by simp [createInspection, pure, Except.pure, bind, Except.bind], ?_, ?_, ?_, ?_⟩ <;>
      simp [List.lookup]

/-- Claim C10: the response shaping of get_export_download_url returns the
value under "url" when the decoded JSON body has that key, and None (not
an error) when the key is absent. -/
theorem lookup_eq_none_of_notMem {β : Type} (k : String) :
    ∀ l : List (String × β), k ∉ l.map Prod.fst → l.lookup k = none := by
  intro l
  induction l with
  | nil => intro; rfl
  | cons kv t ih =>
    obtain ⟨a, b⟩ := kv
    intro h
    have hka : (k == a) = false := by
      simp only [beq_eq_false_iff_ne, ne_eq]
      intro hc
      exact h (by simp [hc])
    have ht : k ∉ t.map Prod.fst := fun hc => h (by simp [hc])
    simpa [List.lookup, hka] using ih ht

theorem lookup_eq_some_of_mem {β : Type} (k : String) (v : β) :
    ∀ l : List (String × β), (l.map Prod.fst).Nodup → (k, v) ∈ l →
      l.lookup k = some v := by
  intro l
  induction l with
  | nil => intro _ hmem; cases hmem
  | cons kv t ih =>
    obtain ⟨a, b⟩ := kv
    intro hnd hmem
    rcases List.mem_cons.mp hmem with heq | htail
    · obtain ⟨hk, hv⟩ : k = a ∧ v = b := by
        constructor <;> cases heq <;> rfl
      simp [List.lookup, hk, hv]
    · have hka : (k == a) = false := by
        simp only [beq_eq_false_iff_ne, ne_eq]
        intro hc
        subst hc
        have hmemf : k ∈ t.map Prod.fst := List.mem_map.mpr ⟨(k, v), htail, rfl⟩
        exact (List.nodup_cons.mp (by simpa using hnd)).1 hmemf
      have hnd2 : (t.map Prod.fst).Nodup := (List.nodup_cons.mp (by simpa using hnd)).2
      simpa [List.lookup, hka] using ih hnd2 htail

theorem c10_get_export_download_url (base expId : String) (content : List (String × JVal)) :
    ("url" ∉ content.map Prod.fst → (getExportDownloadUrl base expId content).2 = none) ∧
    (∀ v, (content.map Prod.fst).Nodup → ("url", v) ∈ content →
      (getExportDownloadUrl base expId content).2 = some v) := by
  constructor
  · intro h
    simpa [getExportDownloadUrl] using lookup_eq_none_of_notMem "url" content h
  · intro v hnd hmem
    simpa [getExportDownloadUrl] using lookup_eq_some_of_mem "url" v content hnd hmem

/-- Claim C10 (witness): the shaping at concrete bodies — a body without
"url" yields None and a body with "url" yields its value. -/
theorem c10_witness :
    (getExportDownloadUrl "u" "e1" [("status", JVal.s "done")]).2 = none ∧
    (getExportDownloadUrl "u" "e1" [("url", JVal.s "https://dl")]).2 =
      some (JVal.s "https://dl") :=
  ⟨(c10_get_export_download_url "u" "e1" [("status", JVal.s "done")]).1 (by decide),
   (c10_get_export_download_url "u" "e1" [("url", JVal.s "https://dl")]).2
     (JVal.s "https://dl") (by decide) (by decide)⟩

/-!
Characterization lemmas for the strptime parser combinators, leading to
claim C2.
-/

theorem lit_some {c : Char} {l r : List Char} : lit c l = some r ↔ l = c :: r := by
  cases l with
  | nil => simp [lit]
  | cons x t =>
    by_cases h : x = c
    · subst h
      simp [lit]
    · simp [lit, h]

theorem litCI_some {u lo : Char} {l r : List Char} :
    litCI u lo l = some r ↔ ∃ x, l = x :: r ∧ (x = u ∨ x = lo) := by
  cases l with
  | nil => simp [litCI]
  | cons x t =>
    by_cases h : x = u ∨ x = lo
    · simp only [litCI, if_pos h, Option.some.injEq]
      constructor
      · intro ht
        exact ⟨x, by rw [ht], h⟩
      · rintro ⟨x0, hx0, _⟩
        exact (List.cons.injEq _ _ _ _ ▸ hx0).2
    · simp only [litCI, if_neg h]
      constructor
      · intro hc
        cases hc
      · rintro ⟨x0, hx0, hx0u⟩
        obtain ⟨hx, -⟩ := List.cons.injEq _ _ _ _ ▸ hx0
        exact absurd (hx ▸ hx0u) h

theorem parseY_some {l r : List Char} {y : Nat} :
    parseY l = some (y, r) ↔
      ∃ a b c d, l = a :: b :: c :: d :: r ∧ a.isDigit = true ∧ b.isDigit = true ∧
        c.isDigit = true ∧ d.isDigit = true ∧
        y = 1000 * dval a + 100 * dval b + 10 * dval c + dval d := by
  rcases l with _ | ⟨a, _ | ⟨b, _ | ⟨c, _ | ⟨d, rest⟩⟩⟩⟩
  · simp [parseY]
  · simp [parseY]
  · simp [parseY]
  · simp [parseY]
  · by_cases h : (a.isDigit && b.isDigit && c.isDigit && d.isDigit) = true
    · obtain ⟨⟨⟨ha, hb⟩, hc⟩, hd⟩ : ((a.isDigit = true ∧ b.isDigit = true) ∧
          c.isDigit = true) ∧ d.isDigit = true := by
        simpa [Bool.and_eq_true] using h
      simp only [parseY, if_pos h, Option.some.injEq, Prod.mk.injEq]
      constructor
      · rintro ⟨hy, hr⟩
        exact ⟨a, b, c, d, by rw [hr], ha, hb, hc, hd, hy.symm⟩
      · rintro ⟨a0, b0, c0, d0, heq, -, -, -, -, hy⟩
        obtain ⟨h1, h2, h3, h4, h5⟩ :
            a = a0 ∧ b = b0 ∧ c = c0 ∧ d = d0 ∧ rest = r := by simpa using heq
        subst h1; subst h2; subst h3; subst h4; subst h5
        exact ⟨hy.symm, rfl⟩
    · simp only [parseY, if_neg h]
      constructor
      · intro hc
        cases hc
      · rintro ⟨a0, b0, c0, d0, heq, ha, hb, hcd, hd, -⟩
        obtain ⟨h1, h2, h3, h4, h5⟩ :
            a = a0 ∧ b = b0 ∧ c = c0 ∧ d = d0 ∧ rest = r := by simpa using heq
        subst h1; subst h2; subst h3; subst h4
        exact (h (by simp [Bool.and_eq_true, ha, hb, hcd, hd])).elim

theorem field2_some {oneLo twoLo twoHi : Nat} {l r : List Char} {v : Nat} :
    field2 oneLo twoLo twoHi l = some (v, r) ↔
      ((∃ c, l = c :: r ∧ c.isDigit = true ∧ oneLo ≤ dval c ∧ v = dval c ∧ Boundary r) ∨
       (∃ c1 c2, l = c1 :: c2 :: r ∧ c1.isDigit = true ∧ c2.isDigit = true ∧
         twoLo ≤ v ∧ v ≤ twoHi ∧ v = 10 * dval c1 + dval c2)) := by
  rcases l with _ | ⟨c1, _ | ⟨c2, rest2⟩⟩
  · simp [field2]
  · by_cases h1 : c1.isDigit = true
    · by_cases h2 : oneLo ≤ dval c1
      · simp only [field2, if_pos h1, if_pos h2, Option.some.injEq, Prod.mk.injEq]
        constructor
        · rintro ⟨hv, hr⟩
          exact Or.inl ⟨c1, by rw [← hr], h1, h2, hv.symm, by rw [← hr]; trivial⟩
        · rintro (⟨c, heq, -, -, hv, -⟩ | ⟨a, b, heq, -⟩)
          · obtain ⟨hc, hr⟩ : c1 = c ∧ [] = r := by simpa using heq
            subst hc
            exact ⟨hv.symm, hr⟩
          · exact absurd heq (by simp)
      · simp only [field2, if_pos h1, if_neg h2]
        constructor
        · intro hc
          cases hc
        · rintro (⟨c, heq, -, hlo, hv, -⟩ | ⟨a, b, heq, -⟩)
          · obtain ⟨hc, hr⟩ : c1 = c ∧ [] = r := by simpa using heq
            subst hc
            exact absurd hlo h2
          · exact absurd heq (by simp)
    · simp only [field2, if_neg h1]
      constructor
      · intro hc
        cases hc
      · rintro (⟨c, heq, hdig, -⟩ | ⟨a, b, heq, hdig, -⟩)
        · obtain ⟨hc, -⟩ : c1 = c ∧ [] = r := by simpa using heq
          subst hc
          exact absurd hdig h1
        · exact absurd heq (by simp)
  · by_cases h1 : c1.isDigit = true
    · by_cases h2 : c2.isDigit = true
      · by_cases hb : twoLo ≤ 10 * dval c1 + dval c2 ∧ 10 * dval c1 + dval c2 ≤ twoHi
        · simp only [field2, if_pos h1, if_pos h2, if_pos hb, Option.some.injEq,
            Prod.mk.injEq]
          constructor
          · rintro ⟨hv, hr⟩
            exact Or.inr ⟨c1, c2, by rw [hr], h1, h2, hv ▸ hb.1, hv ▸ hb.2, hv.symm⟩
          · rintro (⟨c, heq, -, -, -, hbd⟩ | ⟨a, b, heq, -, -, -, -, hv⟩)
            · obtain ⟨hc, hr⟩ : c1 = c ∧ c2 :: rest2 = r := by simpa using heq
              rw [← hr] at hbd
              exact absurd h2 (by simpa [Boundary] using hbd)
            · obtain ⟨ha, hbq, hr⟩ : c1 = a ∧ c2 = b ∧ rest2 = r := by simpa using heq
              subst ha; subst hbq
              exact ⟨hv.symm, hr⟩
        · simp only [field2, if_pos h1, if_pos h2, if_neg hb]
          constructor
          · intro hc
            cases hc
          · rintro (⟨c, heq, -, -, -, hbd⟩ | ⟨a, b, heq, -, -, hlo, hhi, hv⟩)
            · obtain ⟨hc, hr⟩ : c1 = c ∧ c2 :: rest2 = r := by simpa using heq
              rw [← hr] at hbd
              exact absurd h2 (by simpa [Boundary] using hbd)
            · obtain ⟨ha, hbq, -⟩ : c1 = a ∧ c2 = b ∧ rest2 = r := by simpa using heq
              subst ha; subst hbq
              exact (hb ⟨hv ▸ hlo, hv ▸ hhi⟩).elim
      · by_cases h2lo : oneLo ≤ dval c1
        · simp only [field2, if_pos h1, if_neg h2, if_pos h2lo, Option.some.injEq,
            Prod.mk.injEq]
          constructor
          · rintro ⟨hv, hr⟩
            refine Or.inl ⟨c1, by rw [hr], h1, h2lo, hv.symm, ?_⟩
            rw [← hr]
            simpa [Boundary] using h2
          · rintro (⟨c, heq, -, -, hv, -⟩ | ⟨a, b, heq, -, hdig, -⟩)
            · obtain ⟨hc, hr⟩ : c1 = c ∧ c2 :: rest2 = r := by simpa using heq
              subst hc
              exact ⟨hv.symm, hr⟩
            · obtain ⟨ha, hbq, -⟩ : c1 = a ∧ c2 = b ∧ rest2 = r := by simpa using heq
              subst hbq
              exact absurd hdig h2
        · simp only [field2, if_pos h1, if_neg h2, if_neg h2lo]
          constructor
          · intro hc
            cases hc
          · rintro (⟨c, heq, -, hlo, -⟩ | ⟨a, b, heq, -, hdig, -⟩)
            · obtain ⟨hc, -⟩ : c1 = c ∧ c2 :: rest2 = r := by simpa using heq
              subst hc
              exact absurd hlo h2lo
            · obtain ⟨ha, hbq, -⟩ : c1 = a ∧ c2 = b ∧ rest2 = r := by simpa using heq
              subst hbq
              exact absurd hdig h2
    · simp only [field2, if_neg h1]
      constructor
      · intro hc
        cases hc
      · rintro (⟨c, heq, hdig, -⟩ | ⟨a, b, heq, hdig, -⟩)
        · obtain ⟨hc, -⟩ : c1 = c ∧ c2 :: rest2 = r := by simpa using heq
          subst hc
          exact absurd hdig h1
        · obtain ⟨ha, -⟩ : c1 = a ∧ c2 = b ∧ rest2 = r := by simpa using heq
          subst ha
          exact absurd hdig h1

theorem boundary_dropWhile_isDigit (l : List Char) :
    Boundary (l.dropWhile Char.isDigit) := by
  induction l with
  | nil => trivial
  | cons c t ih =>
    by_cases h : c.isDigit = true
    · simpa [List.dropWhile_cons, h] using ih
    · rw [List.dropWhile_cons_of_neg h]
      simpa [Boundary] using h

theorem mem_takeWhile_digit {l : List Char} {c : Char}
    (h : c ∈ l.takeWhile Char.isDigit) : c.isDigit = true := by
  induction l with
  | nil => cases h
  | cons a t ih =>
    by_cases ha : a.isDigit = true
    · rw [List.takeWhile_cons_of_pos ha] at h
      rcases List.mem_cons.mp h with h1 | h2
      · rw [h1]; exact ha
      · exact ih h2
    · rw [List.takeWhile_cons_of_neg ha] at h
      cases h

theorem takeWhile_digit_append {f : List Char} (r : List Char)
    (hf : ∀ c ∈ f, c.isDigit = true) :
    (f ++ r).takeWhile Char.isDigit = f ++ r.takeWhile Char.isDigit := by
  induction f with
  | nil => rfl
  | cons a t ih =>
    have ha : a.isDigit = true := hf a (by simp)
    simp only [List.cons_append, List.takeWhile_cons_of_pos ha]
    rw [ih (fun c hc => hf c (by simp [hc]))]

theorem dropWhile_digit_append {f : List Char} (r : List Char)
    (hf : ∀ c ∈ f, c.isDigit = true) :
    (f ++ r).dropWhile Char.isDigit = r.dropWhile Char.isDigit := by
  induction f with
  | nil => rfl
  | cons a t ih =>
    have ha : a.isDigit = true := hf a (by simp)
    simp only [List.cons_append, List.dropWhile_cons_of_pos ha]
    exact ih (fun c hc => hf c (by simp [hc]))

theorem takeWhile_digit_boundary {r : List Char} (hr : Boundary r) :
    r.takeWhile Char.isDigit = [] := by
  cases r with
  | nil => rfl
  | cons c t => exact List.takeWhile_cons_of_neg (by simpa [Boundary] using hr)

theorem dropWhile_digit_boundary {r : List Char} (hr : Boundary r) :
    r.dropWhile Char.isDigit = r := by
  cases r with
  | nil => rfl
  | cons c t => exact List.dropWhile_cons_of_neg (by simpa [Boundary] using hr)

theorem parseFrac_some {l r : List Char} :
    parseFrac l = some r ↔
      ∃ f, l = f ++ r ∧ (∀ c ∈ f, c.isDigit = true) ∧ 1 ≤ f.length ∧
        f.length ≤ 6 ∧ Boundary r := by
  constructor
  · intro h
    by_cases hc : 1 ≤ (l.takeWhile Char.isDigit).length ∧ (l.takeWhile Char.isDigit).length ≤ 6
    · rw [parseFrac, if_pos hc] at h
      refine ⟨l.takeWhile Char.isDigit, ?_, fun c hm => mem_takeWhile_digit hm,
        hc.1, hc.2, ?_⟩
      · rw [← Option.some.injEq _ _ |>.mp h]
        exact (List.takeWhile_append_dropWhile ..).symm
      · rw [← Option.some.injEq _ _ |>.mp h]
        exact boundary_dropWhile_isDigit l
    · rw [parseFrac, if_neg hc] at h
      cases h
  · rintro ⟨f, rfl, hdig, h1, h6, hb⟩
    have ht : (f ++ r).takeWhile Char.isDigit = f := by
      rw [takeWhile_digit_append r hdig, takeWhile_digit_boundary hb, List.append_nil]
    have hd : (f ++ r).dropWhile Char.isDigit = r := by
      rw [dropWhile_digit_append r hdig, dropWhile_digit_boundary hb]
    rw [parseFrac, ht, hd, if_pos ⟨h1, h6⟩]

theorem digitsVal_one (c : Char) : digitsVal [c] = dval c := by
  simp [digitsVal, List.foldl]

theorem digitsVal_two (c1 c2 : Char) : digitsVal [c1, c2] = 10 * dval c1 + dval c2 := by
  simp [digitsVal, List.foldl]

theorem digitsVal_four (a b c d : Char) :
    digitsVal [a, b, c, d] = 1000 * dval a + 100 * dval b + 10 * dval c + dval d := by
  simp [digitsVal, List.foldl]
  ring

theorem boundary_cons {c : Char} (t : List Char) (h : c.isDigit = false) :
    Boundary (c :: t) := by
  show ¬ c.isDigit = true
  simp [h]

theorem lit_comp (c : Char) (r : List Char) : lit c (c :: r) = some r := by
  simp [lit]

theorem litCI_comp {u lo x : Char} (r : List Char) (h : x = u ∨ x = lo) :
    litCI u lo (x :: r) = some r := by
  simp [litCI, h]

theorem parseY_comp {a b c d : Char} (r : List Char) (ha : a.isDigit = true)
    (hb : b.isDigit = true) (hc : c.isDigit = true) (hd : d.isDigit = true) :
    parseY (a :: b :: c :: d :: r) =
      some (1000 * dval a + 100 * dval b + 10 * dval c + dval d, r) := by
  simp [parseY, ha, hb, hc, hd]

theorem field2_some_shape {oneLo twoLo twoHi : Nat} {l r : List Char} {v : Nat}
    (h : field2 oneLo twoLo twoHi l = some (v, r)) :
    ∃ f, l = f ++ r ∧ FieldShape oneLo twoLo twoHi f ∧ v = digitsVal f := by
  rcases field2_some.mp h with ⟨c, hl, hd, hlo, hv, -⟩ | ⟨c1, c2, hl, h1, h2, hlo, hhi, hv⟩
  · exact ⟨[c], by simpa using hl, Or.inl ⟨c, rfl, hd, hlo⟩, by rw [digitsVal_one]; exact hv⟩
  · exact ⟨[c1, c2], by simpa using hl,
      Or.inr ⟨c1, c2, rfl, h1, h2, hv ▸ hlo, hv ▸ hhi⟩, by rw [digitsVal_two]; exact hv⟩

theorem field2_comp {oneLo twoLo twoHi : Nat} {f : List Char} (r : List Char)
    (hsh : FieldShape oneLo twoLo twoHi f) (hb : Boundary r) :
    field2 oneLo twoLo twoHi (f ++ r) = some (digitsVal f, r) := by
  rcases hsh with ⟨c, rfl, hd, hlo⟩ | ⟨c1, c2, rfl, h1, h2, hlo, hhi⟩
  · apply field2_some.mpr
    exact Or.inl ⟨c, by simp, hd, hlo, digitsVal_one c, hb⟩
  · apply field2_some.mpr
    refine Or.inr ⟨c1, c2, by simp, h1, h2, ?_, ?_, digitsVal_two c1 c2⟩
    · rw [digitsVal_two]; exact hlo
    · rw [digitsVal_two]; exact hhi

theorem parseFrac_comp {f : List Char} (r : List Char)
    (hdig : ∀ c ∈ f, c.isDigit = true) (h1 : 1 ≤ f.length) (h6 : f.length ≤ 6)
    (hb : Boundary r) : parseFrac (f ++ r) = some r :=
  parseFrac_some.mpr ⟨f, rfl, hdig, h1, h6, hb⟩

theorem strptime_forward (s : String) (hok : strptimeOk s = true) : IsoShape s.data := by
  rw [strptimeOk] at hok
  cases hp : parseIso s.data with
  | none => rw [hp] at hok; cases hok
  | some tup =>
    obtain ⟨y, mo, d, h, mi, sec⟩ := tup
    rw [hp] at hok
    simp only [Bool.and_eq_true, decide_eq_true_eq] at hok
    obtain ⟨⟨h1y, hsec⟩, hday⟩ := hok
    simp only [parseIso, bind, Option.bind_eq_some] at hp
    obtain ⟨⟨y1, r1⟩, hY, hp⟩ := hp
    obtain ⟨r2, hL1, hp⟩ := hp
    obtain ⟨⟨mo1, r3⟩, hM, hp⟩ := hp
    obtain ⟨r4, hL2, hp⟩ := hp
    obtain ⟨⟨d1, r5⟩, hD, hp⟩ := hp
    obtain ⟨r6, hT, hp⟩ := hp
    obtain ⟨⟨h1, r7⟩, hH, hp⟩ := hp
    obtain ⟨r8, hL3, hp⟩ := hp
    obtain ⟨⟨mi1, r9⟩, hMi, hp⟩ := hp
    obtain ⟨r10, hL4, hp⟩ := hp
    obtain ⟨⟨sec1, r11⟩, hS, hp⟩ := hp
    obtain ⟨r12, hL5, hp⟩ := hp
    obtain ⟨r13, hF, hp⟩ := hp
    obtain ⟨r14, hZ, hp⟩ := hp
    cases r14 with
    | cons w ws => cases hp
    | nil =>
    obtain ⟨hy1, hmo1, hd1, hh1, hmi1, hsec1⟩ :
        y1 = y ∧ mo1 = mo ∧ d1 = d ∧ h1 = h ∧ mi1 = mi ∧ sec1 = sec := by
      refine ⟨?_, ?_, ?_, ?_, ?_, ?_⟩ <;> cases hp <;> rfl
    obtain ⟨a, b, c, dd, heq, ha, hb, hc, hd, hyv⟩ := parseY_some.mp hY
    have hr1 : r1 = '-' :: r2 := lit_some.mp hL1
    obtain ⟨ms, hr2, hshm, hmov⟩ := field2_some_shape hM
    have hr3 : r3 = '-' :: r4 := lit_some.mp hL2
    obtain ⟨ds, hr4, hshd, hdv⟩ := field2_some_shape hD
    obtain ⟨t, hr5, ht⟩ := litCI_some.mp hT
    obtain ⟨hs, hr6, hshh, hhv⟩ := field2_some_shape hH
    have hr7 : r7 = ':' :: r8 := lit_some.mp hL3
    obtain ⟨mis, hr8, hshmi, hmiv⟩ := field2_some_shape hMi
    have hr9 : r9 = ':' :: r10 := lit_some.mp hL4
    obtain ⟨ss, hr10, hshs, hsv⟩ := field2_some_shape hS
    have hr11 : r11 = '.' :: r12 := lit_some.mp hL5
    obtain ⟨fs, hr12, hfd, hf1, hf6, hbd⟩ := parseFrac_some.mp hF
    obtain ⟨z, hr13, hz⟩ := litCI_some.mp hZ
    subst hr1; subst hr2; subst hr3; subst hr4; subst hr5; subst hr6
    subst hr7; subst hr8; subst hr9; subst hr10; subst hr11; subst hr12; subst hr13
    refine ⟨[a, b, c, dd], ms, ds, hs, mis, ss, fs, t, z, ?_, by simp,
      by intro x hx
         simp only [List.mem_cons, List.not_mem_nil, or_false] at hx
         rcases hx with rfl | rfl | rfl | rfl <;> assumption, ?_, hshm,
      hshd, hshh, hshmi, hshs, ?_, ?_, ht, hz, hf1, hf6, hfd⟩
    · rw [heq]
      simp
    · rw [digitsVal_four, ← hyv, hy1]
      exact h1y
    · rw [← hsv, hsec1]
      exact hsec
    · rw [← hdv, ← hmov, digitsVal_four, ← hyv, hd1, hmo1, hy1]
      exact hday

theorem strptime_backward (s : String) (hiso : IsoShape s.data) : strptimeOk s = true := by
  obtain ⟨ys, ms, ds, hs, mis, ss, fs, t, z, heq, hlen, hysd, h1y, hshm, hshd, hshh,
    hshmi, hshs, hsec, hday, ht, hz, hf1, hf6, hfd⟩ := hiso
  rcases ys with _ | ⟨a, _ | ⟨b, _ | ⟨c, _ | ⟨dd, _ | ⟨e, tl⟩⟩⟩⟩⟩ <;> simp at hlen
  have ha : a.isDigit = true := hysd a (by simp)
  have hb : b.isDigit = true := hysd b (by simp)
  have hc : c.isDigit = true := hysd c (by simp)
  have hd : dd.isDigit = true := hysd dd (by simp)
  have htd : t.isDigit = false := by rcases ht with rfl | rfl <;> decide
  have hzd : z.isDigit = false := by rcases hz with rfl | rfl <;> decide
  have hbz : Boundary [z] := boundary_cons _ hzd
  have hb5 : Boundary ('.' :: (fs ++ [z])) := boundary_cons _ (by decide)
  have hb4 : Boundary (':' :: (ss ++ '.' :: (fs ++ [z]))) := boundary_cons _ (by decide)
  have hb3 : Boundary (':' :: (mis ++ ':' :: (ss ++ '.' :: (fs ++ [z])))) :=
    boundary_cons _ (by decide)
  have hb2 : Boundary (t :: (hs ++ ':' :: (mis ++ ':' :: (ss ++ '.' :: (fs ++ [z]))))) :=
    boundary_cons _ htd
  have hb1 : Boundary ('-' :: (ds ++ t :: (hs ++ ':' :: (mis ++ ':' :: (ss ++ '.' ::
      (fs ++ [z])))))) := boundary_cons _ (by decide)
  rw [strptimeOk]
  have hparse : parseIso s.data =
      some (1000 * dval a + 100 * dval b + 10 * dval c + dval dd,
        digitsVal ms, digitsVal ds, digitsVal hs, digitsVal mis, digitsVal ss) := by
    rw [heq]
    simp only [List.cons_append, List.nil_append, parseIso, bind]
    rw [parseY_comp _ ha hb hc hd]
    simp only [Option.bind]
    rw [lit_comp]
    simp only [Option.bind]
    rw [field2_comp _ hshm hb1]
    simp only [Option.bind]
    rw [lit_comp]
    simp only [Option.bind]
    rw [field2_comp _ hshd hb2]
    simp only [Option.bind]
    rw [litCI_comp _ ht]
    simp only [Option.bind]
    rw [field2_comp _ hshh hb3]
    simp only [Option.bind]
    rw [lit_comp]
    simp only [Option.bind]
    rw [field2_comp _ hshmi hb4]
    simp only [Option.bind]
    rw [lit_comp]
    simp only [Option.bind]
    rw [field2_comp _ hshs hb5]
    simp only [Option.bind]
    rw [lit_comp]
    simp only [Option.bind]
    rw [parseFrac_comp _ hfd hf1 hf6 hbz]
    simp only [Option.bind]
    rw [litCI_comp _ hz]
  rw [hparse]
  simp only [Bool.and_eq_true, decide_eq_true_eq]
  refine ⟨⟨?_, hsec⟩, ?_⟩
  · rw [digitsVal_four] at h1y
    exact h1y
  · rw [digitsVal_four] at hday
    exact hday

/-- Claim C2 (counterexample): the validator accepts
"2022-01-01T00:00:00.1Z", a string with a single fractional-second digit
that does not match the claimed exact pattern YYYY-MM-DDTHH:MM:SS.mmmZ
(which "2022-01-01T00:00:00.000Z" does match), so acceptance is not
equivalent to the claimed exact three-digit pattern. -/
theorem c2_counterexample_fraction_digits :
    validate_iso_datetime "2022-01-01T00:00:00.1Z" = .ok "2022-01-01T00:00:00.1Z" ∧
    specExactPattern "2022-01-01T00:00:00.1Z" = false ∧
    specExactPattern "2022-01-01T00:00:00.000Z" = true := by decide

/-- Claim C2 (amended): validate_iso_datetime(s) returns s unchanged
exactly when s matches the strptime format `%Y-%m-%dT%H:%M:%S.%fZ` — a
four-digit year of value at least 1, one-or-two-digit month, day, hour,
minute and second fields within range (second at most 59), a day valid
for the parsed month and year, ONE TO SIX fractional-second digits, and
the literal separators with 'T' and 'Z' matched case-insensitively; for
every other string it raises a ValidationError. -/
theorem c2_validate_iso_datetime_characterization (s : String) :
    (validate_iso_datetime s = .ok s ↔ IsoShape s.data) ∧
    (¬ IsoShape s.data → validate_iso_datetime s = .error ()) := by
  have hiff : strptimeOk s = true ↔ IsoShape s.data :=
    ⟨strptime_forward s, strptime_backward s⟩
  constructor
  · constructor
    · intro h
      cases hst : strptimeOk s
      · rw [validate_iso_datetime] at h
        simp [hst] at h
      · exact hiff.mp hst
    · intro h
      simp [validate_iso_datetime, hiff.mpr h]
  · intro h
    have hst : strptimeOk s = false := by
      cases hst : strptimeOk s
      · rfl
      · exact absurd (hiff.mp hst) h
    simp [validate_iso_datetime, hst]

/-- Claim C2 (witness): the amended characterization at concrete inputs —
"2022-01-01" is rejected and "2022-01-01T00:00:00.000Z" has the accepted
shape. -/
theorem c2_witness :
    validate_iso_datetime "2022-01-01" = .error () ∧
    IsoShape ("2022-01-01T00:00:00.000Z" : String).data :=
  ⟨(c2_validate_iso_datetime_characterization "2022-01-01").2
    (fun h =>
      absurd ((c2_validate_iso_datetime_characterization "2022-01-01").1.mpr h)
        (by decide)),
   (c2_validate_iso_datetime_characterization "2022-01-01T00:00:00.000Z").1.mp
    (by decide)⟩

end ClassySdk
